import Mathlib

/-!
# Verification of the sales ETL + Pareto pipeline (`scripts/data_cleaning.py`)

Shallow embedding of the pipeline's core stages:

* string helpers (`remove_accents`, Python `str.strip`/`lower`/`upper`,
  substring containment used by the fuzzy matchers);
* `super_normalize_columns` (Fase 2): column-label cleaning, fuzzy
  detection, batch rename, `Articulo` check;
* `has_valid_columns` (Fase 1 helper): the header sniffer's validity
  predicate;
* `extract_all_files` (Fase 1): per-file try/except with skip, tagging
  with `Sucursal`, concatenation;
* `clean_data` (Fase 3): `Venta_Neta` derivation, numeric coercion,
  `Articulo` cleanup, TOTAL/SUBTOTAL row exclusion, `Descripcion` default;
* `calculate_pareto` (Fase 4): fact aggregation by (`Articulo`,
  `Sucursal`), dimension re-aggregation by `Articulo`, `Tasa_Devolucion`,
  positive-sales filter, descending sort, shares, cumulative shares, ABC
  classification, ranking, referential filtering of the fact table.

Numbers are embedded as `ℚ`; `pandas.round` (= numpy round-half-even) is
embedded exactly as rational rounding to `n` decimals with ties to even.
Missing/unparsable numeric cells (`to_numeric(errors='coerce')` producing
NaN, then `fillna(0)`) are embedded as `Option ℚ` with `getD 0`.  IEEE
division of the nonnegative totals `dev / bruta` is embedded by the
three-valued `Tasa` type (finite / +inf / -inf), since `fillna` only
replaces NaN (the 0/0 case) and leaves infinities.
-/

namespace FashionRetail

/-! ## String helpers -/

/-- Python whitespace characters stripped by `str.strip()` (ASCII range). -/
def isPySpace (c : Char) : Bool :=
  c = ' ' || c = '\t' || c = '\n' || c = '\r' || c = '\x0b' || c = '\x0c'

/-- Strip whitespace from both ends of a character list (`str.strip()`). -/
def stripChars (l : List Char) : List Char :=
  ((l.dropWhile isPySpace).reverse.dropWhile isPySpace).reverse

/-- `str.strip()`. -/
def pyStrip (s : String) : String := ⟨stripChars s.data⟩

/-- Character-wise table of the NFKD decomposition + combining-mark filter of
`remove_accents` for the accented Latin letters that occur in the data
(á→a, é→e, í→i, ó→o, ú→u, ü→u, ñ→n and their uppercase forms), as the
function's own docstring describes.  Unaccented characters decompose to
themselves. -/
def accentPairs : List (Char × Char) :=
  [('á', 'a'), ('é', 'e'), ('í', 'i'), ('ó', 'o'), ('ú', 'u'), ('ü', 'u'),
   ('ñ', 'n'), ('Á', 'A'), ('É', 'E'), ('Í', 'I'), ('Ó', 'O'), ('Ú', 'U'),
   ('Ü', 'U'), ('Ñ', 'N')]

/-- Strip the accent of one character. -/
def deaccentChar (c : Char) : Char := ((accentPairs.lookup c).getD c)

/-- `remove_accents` from the script: NFKD-normalize and drop combining
marks, embedded character-wise via `accentPairs`. -/
def removeAccents (s : String) : String := ⟨s.data.map deaccentChar⟩

/-- Decidable substring test on character lists (`needle ⊑ hay`), the
semantics of Python's `in` on strings and of `str.contains` for the plain
(metacharacter-free) patterns the script uses. -/
def isSub (p : List Char) : List Char → Bool
  | [] => p.isEmpty
  | c :: t => p.isPrefixOf (c :: t) || isSub p t

/-- `pat in s` for Python strings. -/
def containsSub (s pat : String) : Bool := isSub pat.data s.data

/-! ## Fase 2: `super_normalize_columns` -/

/-- A parsed table: column labels plus rows of raw string cells.  Renaming
columns never touches the rows, exactly as `DataFrame.rename`. -/
structure RTable where
  header : List String
  rows : List (List String)
deriving DecidableEq, Repr

/-- Step 1 cleaning of one label: `remove_accents(str(col).strip())`. -/
def clean1 (s : String) : String := removeAccents (pyStrip s)

/-- `str.lower()` (character-wise; the labels reaching it are already
accent-stripped, so ASCII lowering is exact here). -/
def pyLower (s : String) : String := ⟨s.data.map Char.toLower⟩

/-- `str.upper()` (character-wise ASCII uppercasing). -/
def pyUpper (s : String) : String := ⟨s.data.map Char.toUpper⟩

/-- The matching key of one label inside the fuzzy scan:
`col_clean = remove_accents(col.lower())`. -/
def clean2 (s : String) : String := removeAccents (pyLower s)

/-- The `Articulo` fuzzy test: `'art' in col_clean or 'prod' in col_clean
or 'codigo' in col_clean or 'sku' in col_clean`. -/
def artMatch (c : String) : Bool :=
  containsSub c "art" || containsSub c "prod" || containsSub c "codigo" || containsSub c "sku"

/-- The `if/elif` chain that runs when the `Articulo` branch was not
taken: Descripcion / Cantidad / Precio / Total_precio detection. -/
def chainRule (c : String) : Option String :=
  if containsSub c "desc" || containsSub c "nombre" then some "Descripcion"
  else if containsSub c "cant" && !containsSub c "total" then some "Cantidad"
  else if c = "precio" || c = "precio unitario" || c = "preciou" then some "Precio"
  else if (containsSub c "total" && containsSub c "prec") || c = "total" || c = "importe" then
    some "Total_precio"
  else none

/-- One loop iteration's mapping decision.  When `articulo_found` is still
false and the label art-matches, the column is mapped to `Articulo` and the
`continue` skips the chain; otherwise the chain runs. -/
def ruleFor (found : Bool) (c : String) : Option String :=
  if !found && artMatch c then some "Articulo" else chainRule c

/-- The scan over the (already step-1-cleaned) labels building the
`col_mapping` dict.  The dict is embedded as a function
`String → Option String`; a later assignment to the same key overwrites the
earlier one, exactly like the Python dict.  `articulo_found` becomes true
exactly when the `Articulo` branch fires. -/
def scanCols : List String → Bool → (String → Option String) → (String → Option String)
  | [], _, m => m
  | col :: rest, found, m =>
    let c := clean2 col
    let m' := match ruleFor found c with
      | some tgt => fun x => if x = col then some tgt else m x
      | none => m
    scanCols rest (found || artMatch c) m'

/-- Full relabeling: step-1 clean every label, build the mapping over the
cleaned labels, then apply it as one batch rename (`df.rename(columns=…)`:
every column whose label is a key of the dict gets the dict's value, all
others keep their label). -/
def normalizeHeader (hs : List String) : List String :=
  let cleaned := hs.map clean1
  let m := scanCols cleaned false (fun _ => none)
  cleaned.map (fun l => (m l).getD l)

/-- `super_normalize_columns`: relabel, then raise `KeyError` when no
column is named `Articulo`. -/
def super_normalize_columns (t : RTable) : Except String RTable :=
  let h := normalizeHeader t.header
  if "Articulo" ∈ h then .ok ⟨h, t.rows⟩
  else .error "La columna 'Articulo' no existe. Ver DEBUG arriba."

/-! ## Fase 1: header-sniffer validity predicate and extraction -/

/-- The keyword list of `has_valid_columns`. -/
def sniffKeywords : List String := ["art", "prod", "desc", "prec", "cant", "total"]

/-- `has_valid_columns`: reject when `df.empty` (no rows or no columns) or
fewer than 3 columns; otherwise lower + deaccent each label and count the
(column, keyword) containment pairs —
`sum(1 for col in cols_lower for kw in keywords if kw in col)` — accepting
when that count is at least 2. -/
def has_valid_columns (t : RTable) : Bool :=
  if t.rows.isEmpty || t.header.isEmpty || t.header.length < 3 then false
  else
    let colsLower := t.header.map (fun c => removeAccents (pyLower c))
    let nMatches := (colsLower.map
      (fun col => (sniffKeywords.filter (fun kw => containsSub col kw)).length)).sum
    decide (2 ≤ nMatches)

/-- `df['Sucursal'] = sucursal_name`: append the branch column, valued with
the upper-cased file stem on every row. -/
def addSucursal (t : RTable) (stem : String) : RTable :=
  ⟨t.header ++ ["Sucursal"], t.rows.map (fun r => r ++ [pyUpper stem])⟩

/-- Column-union order of `pd.concat`: first table's columns first, then
new columns in order of first appearance. -/
def unionHeaders (ts : List RTable) : List String :=
  (ts.foldl (fun acc t => acc ++ t.header) []).dedup

/-- The cell a concatenated row shows for column `c`: the table's own value
when it has that column, `NaN` otherwise (missing cells become missing
values). -/
def cellFor (t : RTable) (row : List String) (c : String) : String :=
  match t.header.findIdx? (· = c) with
  | some i => (row.get? i).getD "NaN"
  | none => "NaN"

/-- `pd.concat(dataframes, ignore_index=True)`: rows of every table in
order, reindexed to the union of the headers. -/
def concatTables (ts : List RTable) : RTable :=
  let H := unionHeaders ts
  ⟨H, ts.flatMap (fun t => t.rows.map (fun row => H.map (cellFor t row)))⟩

/-- `extract_all_files`, with each discovered file given as its stem plus
the outcome of `smart_read_csv` on it (`Except.error` when reading raised).
The per-file `try/except` catches a read error, logs it and skips the file;
no files at all is a `FileNotFoundError`, no surviving file a
`ValueError`. -/
def extract_all_files (files : List (String × Except String RTable)) : Except String RTable :=
  if files.isEmpty then .error "No se encontraron archivos CSV"
  else
    let dataframes := files.filterMap fun f =>
      match f.2 with
      | .ok df => some (addSucursal df f.1)
      | .error _ => none
    if dataframes.isEmpty then .error "No se pudo cargar ningun archivo"
    else .ok (concatTables dataframes)

/-- The pipeline prefix `extract_all_files` → `super_normalize_columns` of
`run_pipeline`; there is no try/except around the normalization call, so
its error is the run's error. -/
def runToNormalize (files : List (String × Except String RTable)) : Except String RTable :=
  (extract_all_files files).bind super_normalize_columns

/-! ## Rounding (numpy/pandas `round`: half to even) -/

/-- Round a rational to the nearest integer, ties to even (the rounding of
`numpy.round`, which `Series.round` uses). -/
def rhe (q : ℚ) : ℤ :=
  if q - ⌊q⌋ < 1 / 2 then ⌊q⌋
  else if 1 / 2 < q - ⌊q⌋ then ⌊q⌋ + 1
  else if Even ⌊q⌋ then ⌊q⌋ else ⌊q⌋ + 1

/-- `round(q, n)`: half-to-even rounding to `n` decimal places. -/
def roundTo (n : ℕ) (q : ℚ) : ℚ := (rhe (q * 10 ^ n) : ℚ) / 10 ^ n

/-! ## Fase 3: `clean_data` -/

/-- A consolidated table as `clean_data` sees it, abstracted to the columns
the function reads: `Articulo` (guaranteed by normalization), optional
`Descripcion` / `Cantidad` columns, the detected total-like column (or
none), and `Sucursal`.  Numeric cells carry the result of
`pd.to_numeric(…, errors='coerce')`: `none` is NaN (unparsable/missing) and
`fillna(0)` turns it into 0. -/
structure SrcRow where
  articulo : String
  descripcion : String
  total : Option ℚ
  cantidad : Option ℚ
  sucursal : String
deriving DecidableEq, Repr

/-- Input of `clean_data`: which optional columns exist, plus the rows.
`hasTotal` is whether the total-column search (exact variants, then the
fuzzy `'total' in name` fallback) found a column; when it did not,
`Venta_Neta` is the constant 0. -/
structure CTable where
  hasDesc : Bool
  hasCant : Bool
  hasTotal : Bool
  rows : List SrcRow
deriving DecidableEq, Repr

/-- A row of the clean table handed to `calculate_pareto`: `Articulo`
stripped and upper-cased, `Venta_Neta` and `Cantidad` numeric, and a
`Descripcion` that always exists (default `'SIN DESCRIPCION'`). -/
structure CleanRow where
  articulo : String
  descripcion : String
  sucursal : String
  ventaNeta : ℚ
  cantidad : ℚ
deriving DecidableEq, Repr

/-- The TOTAL/SUBTOTAL patterns removed by the Pareto filter. -/
def patrones_totales : List String :=
  ["TOTAL", "GRAND TOTAL", "SUBTOTAL", "GRAN TOTAL", "TOTAL GENERAL"]

/-- `Series.str.contains(patron, case=False)` applied to an already
upper-cased value and an upper-case ASCII pattern: plain substring test. -/
def matchesTotalPattern (s : String) : Bool :=
  patrones_totales.any (fun p => containsSub s p)

/-- `clean_data`: derive `Venta_Neta` from the detected total column
(0 when none), coerce `Cantidad`, strip/upper `Articulo` and drop
empty/`NAN`/`NONE` identities, drop TOTAL/SUBTOTAL rows (checking
`Descripcion` too when that column exists, upper-casing it in place), then
default `Descripcion` when the column is absent. -/
def clean_data (t : CTable) : List CleanRow :=
  let typed := t.rows.map fun r =>
    { articulo := pyUpper (pyStrip r.articulo)
      descripcion := if t.hasDesc then pyUpper (pyStrip r.descripcion) else "SIN DESCRIPCION"
      sucursal := r.sucursal
      ventaNeta := if t.hasTotal then r.total.getD 0 else 0
      cantidad := if t.hasCant then r.cantidad.getD 0 else 0 : CleanRow }
  let validId := typed.filter fun r =>
    r.articulo ≠ "" && r.articulo ≠ "NAN" && r.articulo ≠ "NONE"
  validId.filter fun r =>
    !matchesTotalPattern r.articulo && !(t.hasDesc && matchesTotalPattern r.descripcion)

/-! ## Fase 4: `calculate_pareto` -/

/-- `x if x > 0 else 0`: the gross component of one net sale. -/
def ventaBrutaOf (x : ℚ) : ℚ := if 0 < x then x else 0

/-- `abs(x) if x < 0 else 0`: the return component of one net sale. -/
def ventaDevolucionOf (x : ℚ) : ℚ := if x < 0 then |x| else 0

/-- A `fact_ventas` row: one (`Articulo`, `Sucursal`) group with its
rounded sums. -/
structure FactRow where
  articulo : String
  sucursal : String
  ventaNeta : ℚ
  ventaBruta : ℚ
  ventaDevolucion : ℚ
  cantidad : ℚ
deriving DecidableEq, Repr

/-- Sum of `f` over the clean rows of one (`Articulo`, `Sucursal`)
group. -/
def gsum (rows : List CleanRow) (a s : String) (f : CleanRow → ℚ) : ℚ :=
  ((rows.filter fun r => r.articulo = a ∧ r.sucursal = s).map f).sum

/-- The distinct (`Articulo`, `Sucursal`) pairs of the clean rows — the
groupby keys.  (pandas emits them sorted; no claim depends on the key
order, only on the key set, which `eraseDup` reproduces exactly.) -/
def factKeys (rows : List CleanRow) : List (String × String) :=
  (rows.map fun r => (r.articulo, r.sucursal)).dedup

/-- `fact_ventas`: group by (`Articulo`, `Sucursal`), sum `Venta_Neta`,
the gross/return components and `Cantidad`, then round money to 2 decimals
and quantity to 0. -/
def makeFact (rows : List CleanRow) : List FactRow :=
  (factKeys rows).map fun k =>
    { articulo := k.1
      sucursal := k.2
      ventaNeta := roundTo 2 (gsum rows k.1 k.2 (·.ventaNeta))
      ventaBruta := roundTo 2 (gsum rows k.1 k.2 (fun r => ventaBrutaOf r.ventaNeta))
      ventaDevolucion := roundTo 2 (gsum rows k.1 k.2 (fun r => ventaDevolucionOf r.ventaNeta))
      cantidad := roundTo 0 (gsum rows k.1 k.2 (·.cantidad)) }

/-- The float value of `Venta_Devolucion_Total / Venta_Bruta_Total` after
`fillna(0)`: IEEE division gives NaN for 0/0 (replaced by 0) and signed
infinity for x/0 with x ≠ 0, which `fillna` does NOT replace. -/
inductive Tasa where
  | fin (q : ℚ)
  | posInf
  | negInf
deriving DecidableEq, Repr

/-- `(dev / bruta).fillna(0).round(4)` for one article. -/
def tasaDevolucion (dev bruta : ℚ) : Tasa :=
  if bruta = 0 then
    if dev = 0 then .fin 0
    else if 0 < dev then .posInf
    else .negInf
  else .fin (roundTo 4 (dev / bruta))

/-- A row of the candidate `dim_articulos` (before the positive-sales
filter): per-article totals re-aggregated from `fact_ventas`. -/
structure DRow where
  articulo : String
  descripcion : String
  vNetaTotal : ℚ
  vBrutaTotal : ℚ
  vDevTotal : ℚ
  tasa : Tasa
deriving DecidableEq, Repr

/-- The distinct articles of the fact table. -/
def dimKeys (fact : List FactRow) : List String :=
  (fact.map (·.articulo)).dedup

/-- Sum of `f` over the fact rows of one article. -/
def fsum (fact : List FactRow) (a : String) (f : FactRow → ℚ) : ℚ :=
  ((fact.filter fun fr => fr.articulo = a).map f).sum

/-- The candidate `dim_articulos`: group `fact_ventas` by `Articulo`, sum
the three monetary columns, compute `Tasa_Devolucion`, and attach the first
observed `Descripcion` of the article from the clean rows
(`df.groupby('Articulo')['Descripcion'].first()`). -/
def dimCandidates (rows : List CleanRow) (fact : List FactRow) : List DRow :=
  (dimKeys fact).map fun a =>
    let bruta := fsum fact a (·.ventaBruta)
    let dev := fsum fact a (·.ventaDevolucion)
    { articulo := a
      descripcion := ((rows.find? fun r => r.articulo = a).map (·.descripcion)).getD ""
      vNetaTotal := fsum fact a (·.ventaNeta)
      vBrutaTotal := bruta
      vDevTotal := dev
      tasa := tasaDevolucion dev bruta }

/-- ABC class. -/
inductive ABC where
  | A
  | B
  | C
deriving DecidableEq, Repr

/-- The classification the three `.loc` assignments produce: default `'C'`,
`'A'` when the cumulative share is ≤ 0.80, `'B'` when it lies in
]0.80, 0.95]. -/
def classifyABC (pa : ℚ) : ABC :=
  if pa ≤ 0.80 then .A else if pa ≤ 0.95 then .B else .C

/-- A row of the final `dim_articulos` export. -/
structure DimRow where
  articulo : String
  descripcion : String
  ranking : ℕ
  cls : ABC
  vNetaTotal : ℚ
  vBrutaTotal : ℚ
  vDevTotal : ℚ
  tasa : Tasa
  pg : ℚ
  pa : ℚ
deriving DecidableEq, Repr

/-- Walk the sorted positive articles computing
`Porcentaje_Articulo_Global = round(v / total, 4)`, the running cumulative
sum of those rounded shares, `Porcentaje_Acumulado = round(cumsum, 4)`, the
ABC class and the 1-based dense ranking. -/
def buildDim (total : ℚ) : List DRow → ℚ → ℕ → List DimRow
  | [], _, _ => []
  | d :: rest, acc, i =>
    let pg := roundTo 4 (d.vNetaTotal / total)
    let acc' := acc + pg
    let pa := roundTo 4 acc'
    { articulo := d.articulo
      descripcion := d.descripcion
      ranking := i + 1
      cls := classifyABC pa
      vNetaTotal := d.vNetaTotal
      vBrutaTotal := d.vBrutaTotal
      vDevTotal := d.vDevTotal
      tasa := d.tasa
      pg := pg
      pa := pa } :: buildDim total rest acc' (i + 1)

/-- `calculate_pareto`: build `fact_ventas`, re-aggregate it into the
candidate dimension, keep articles with positive net sales (error when none
remain), sort them by `Venta_Neta_Total` descending, derive shares /
cumulative shares / ABC / ranking, and restrict the exported fact table to
the articles of the ranked dimension. -/
def calculate_pareto (rows : List CleanRow) : Except String (List FactRow × List DimRow) :=
  let fact := makeFact rows
  let cand := dimCandidates rows fact
  let dimPos := cand.filter fun d => 0 < d.vNetaTotal
  if dimPos.isEmpty then .error "No hay articulos con venta positiva"
  else
    let sorted := dimPos.insertionSort (fun a b => b.vNetaTotal ≤ a.vNetaTotal)
    let totalPositivo := (sorted.map (·.vNetaTotal)).sum
    let dim := buildDim totalPositivo sorted 0 0
    let arts : List String := dim.map (·.articulo)
    let factFinal := fact.filter fun fr => decide (fr.articulo ∈ arts)
    .ok (factFinal, dim)

/-- The fact table of a successful run (`[]` when `calculate_pareto`
raised); lets concrete runs be named without repeating their literal
value. -/
def factOf (rows : List CleanRow) : List FactRow :=
  match calculate_pareto rows with
  | .ok p => p.1
  | .error _ => []

/-- The dimension table of a successful run (`[]` on error). -/
def dimOf (rows : List CleanRow) : List DimRow :=
  match calculate_pareto rows with
  | .ok p => p.2
  | .error _ => []

/-! ## Helper views and concrete tables used by the theorems -/

deriving instance DecidableEq for Except

/-- The header of a successful normalization (`[]` on error). -/
def okHeader : Except String RTable → List String
  | .ok t => t.header
  | .error _ => []

/-- The step-1-cleaned labels of a table. -/
def cleanedHeader (t : RTable) : List String := t.header.map clean1

/-- The canonical vocabulary of the spec's data model. -/
def canonicalLabels : List String :=
  ["Articulo", "Descripcion", "Cantidad", "Precio", "Total_precio", "Sucursal"]

/-- The validity predicate as the spec words it (for comparison with
`has_valid_columns`): non-empty parse, at least 3 columns, and at least 2
distinct columns whose accent-stripped lowercase name contains one of the
keywords. -/
def validColumnsSpec (t : RTable) : Bool :=
  !t.rows.isEmpty && decide (3 ≤ t.header.length) &&
    decide (2 ≤ (t.header.filter fun c =>
      sniffKeywords.any fun kw => containsSub (removeAccents (pyLower c)) kw).length)

/-- One matching column carrying two keywords (`prec` and `total`), two
non-matching ones. -/
def sniffCex : RTable := ⟨["precio total", "fecha", "obs"], [["1", "2", "3"]]⟩

/-- A later column literally named `Articulo` coexisting with an earlier
fuzzy match. -/
def dupNameCex : RTable := ⟨["Producto", "Articulo"], []⟩

/-- Two raw labels that clean to the same string: the dict entry of the
first (the `Articulo` match) is overwritten by the second occurrence's
`Descripcion` match, so normalization raises although a column matched. -/
def overwriteCex : RTable := ⟨[" Producto descripcion", "Producto descripcion"], [["a", "b"]]⟩

/-- A well-behaved header for instantiating the amended C2 statement. -/
def c2WitnessTable : RTable := ⟨["Producto", "Descripcion", "Total"], [["X1", "d", "10"]]⟩

/-- A table on which normalization succeeds but is not idempotent: the
second pass renames `Particular` to `Articulo` because the overwritten
first-pass match no longer art-matches. -/
def nonIdempotentCex : RTable :=
  ⟨["Producto descripcion", "Particular", " Producto descripcion", "Articulo"], []⟩

/-- An already-canonical table for the amended C9 statement. -/
def c9WitnessTable : RTable :=
  ⟨["Articulo", "Descripcion", "Sucursal"], [["X1", "d", "S1"]]⟩

/-- A readable file whose table normalizes fine. -/
def fileTableA : RTable := ⟨["Producto", "Desc", "Total"], [["X1", "d", "10"]]⟩

/-- A readable file none of whose columns art-matches, so normalization of
the consolidated table raises. -/
def noArtTable : RTable := ⟨["Fecha", "Monto", "Obs"], [["1", "2", "3"]]⟩

/-- Clean rows with one normal sale (article A) and one pure-return
article B (only a negative net sale, so `Venta_Bruta_Total = 0` and
`Venta_Devolucion_Total = 150`). -/
def pureReturnRows : List CleanRow :=
  [⟨"A", "DESC A", "S1", 100, 1⟩, ⟨"B", "DESC B", "S1", -150, 1⟩]

/-- Scenario 2 of the spec: an ordinary row plus a summary row with
`Articulo = "TOTAL GENERAL"` and `Venta_Neta = 50000`. -/
def scenario2Table : CTable :=
  ⟨true, true, true,
   [⟨"SKU-1", "Camisa", some 100, some 2, "S1"⟩,
    ⟨"TOTAL GENERAL", "", some 50000, none, "S1"⟩]⟩

/-- A dummy clean row for total-default projections. -/
def dummyClean : CleanRow := ⟨"", "", "", 0, 0⟩

/-- A dummy fact row for total-default projections. -/
def dummyFact : FactRow := ⟨"", "", 0, 0, 0, 0⟩

/-- A dummy dimension row for total-default projections. -/
def dummyDim : DimRow := ⟨"", "", 0, .C, 0, 0, 0, .fin 0, 0, 0⟩

/-- Clean rows whose per-article totals are 80 / 15 / 5: cumulative shares
0.80, 0.95, 1.00 giving classes A, B, C. -/
def ventasC5 : List CleanRow :=
  [⟨"M1", "D1", "S1", 80, 1⟩, ⟨"M2", "D2", "S1", 15, 2⟩, ⟨"M3", "D3", "S2", 5, 1⟩]

/-- Clean rows exercising rounding in the cumulative shares. -/
def ventasC6 : List CleanRow :=
  [⟨"M1", "D1", "S1", 70, 1⟩, ⟨"M2", "D2", "S1", 20, 2⟩, ⟨"M3", "D3", "S2", 10, 1⟩,
   ⟨"M4", "D4", "S1", -3, 1⟩]

/-- Clean rows with one article split over two branches plus a net-return
article. -/
def ventasC1 : List CleanRow :=
  [⟨"A", "D", "S1", 800, 1⟩, ⟨"A", "D", "S2", 200, 1⟩, ⟨"B", "D", "S1", -5, 1⟩]

/-- Clean rows with mixed-sign sales inside one group. -/
def ventasC10 : List CleanRow :=
  [⟨"A", "D", "S1", 10, 1⟩, ⟨"A", "D", "S1", -4, 1⟩, ⟨"B", "D", "S1", 7, 1⟩]

/-- The first clean row of the Scenario-2 table. -/
def c4Row : CleanRow := ((clean_data scenario2Table).get? 0).getD dummyClean

/-- The class-B row of the `ventasC5` dimension. -/
def c5Row : DimRow := ((dimOf ventasC5).get? 1).getD dummyDim

/-- The last row of the `ventasC6` dimension. -/
def c6Last : DimRow := ((dimOf ventasC6).getLast?).getD dummyDim

/-- The first exported fact row of `ventasC10`. -/
def c10Row : FactRow := ((factOf ventasC10).get? 0).getD dummyFact

/-! ## Lemmas about the rounding -/

attribute [local semireducible] Rat.add Rat.mul Rat.sub Rat.inv Rat.ofScientific

theorem rhe_cases (q : ℚ) : rhe q = ⌊q⌋ ∨ rhe q = ⌊q⌋ + 1 := by
  unfold rhe
  split
  · exact Or.inl rfl
  · split
    · exact Or.inr rfl
    · split
      · exact Or.inl rfl
      · exact Or.inr rfl

theorem abs_rhe_sub (q : ℚ) : |((rhe q : ℤ) : ℚ) - q| ≤ 1 / 2 := by
  have hle : (⌊q⌋ : ℚ) ≤ q := Int.floor_le q
  have hlt : q < (⌊q⌋ : ℚ) + 1 := Int.lt_floor_add_one q
  unfold rhe
  split
  · rename_i h
    rw [abs_sub_comm, abs_of_nonneg (by linarith)]
    linarith
  · rename_i h
    push_neg at h
    split
    · rename_i h2
      push_cast
      rw [abs_of_nonneg (by linarith)]
      linarith
    · rename_i h2
      push_neg at h2
      have heq : q - (⌊q⌋ : ℚ) = 1 / 2 := le_antisymm h2 h
      split
      · rw [abs_sub_comm, abs_of_nonneg (by linarith)]
        linarith
      · push_cast
        rw [abs_of_nonneg (by linarith)]
        linarith

theorem rhe_nonneg {q : ℚ} (h : 0 ≤ q) : 0 ≤ rhe q := by
  have h0 : (0 : ℤ) ≤ ⌊q⌋ := Int.floor_nonneg.2 h
  rcases rhe_cases q with h1 | h1 <;> omega

theorem rhe_intCast (z : ℤ) : rhe (z : ℚ) = z := by
  unfold rhe
  rw [Int.floor_intCast]
  split
  · rfl
  · rename_i h
    exfalso
    apply h
    simp

theorem pow10_pos (n : ℕ) : (0 : ℚ) < 10 ^ n := by positivity

theorem abs_roundTo_sub (n : ℕ) (q : ℚ) :
    |roundTo n q - q| ≤ 1 / (2 * 10 ^ n) := by
  have hp := pow10_pos n
  have h := abs_rhe_sub (q * 10 ^ n)
  have hne : (10 : ℚ) ^ n ≠ 0 := ne_of_gt hp
  have hq : roundTo n q - q = (((rhe (q * 10 ^ n) : ℤ) : ℚ) - q * 10 ^ n) / 10 ^ n := by
    rw [roundTo]
    field_simp
    ring
  rw [hq, abs_div, abs_of_pos hp, div_le_iff₀ hp]
  calc |((rhe (q * 10 ^ n) : ℤ) : ℚ) - q * 10 ^ n| ≤ 1 / 2 := h
  _ = 1 / (2 * 10 ^ n) * 10 ^ n := by field_simp

theorem roundTo_nonneg {n : ℕ} {q : ℚ} (h : 0 ≤ q) : 0 ≤ roundTo n q := by
  have hp := pow10_pos n
  have h1 : 0 ≤ rhe (q * 10 ^ n) := rhe_nonneg (by positivity)
  unfold roundTo
  positivity

/-- The rationals with at most 4 decimal places: the possible values of the
rounded shares and of their running sums. -/
def IsDec4 (q : ℚ) : Prop := ∃ z : ℤ, q = (z : ℚ) / 10 ^ 4

theorem isDec4_zero : IsDec4 0 := ⟨0, by simp⟩

theorem isDec4_add {a b : ℚ} (ha : IsDec4 a) (hb : IsDec4 b) : IsDec4 (a + b) := by
  obtain ⟨x, hx⟩ := ha
  obtain ⟨y, hy⟩ := hb
  exact ⟨x + y, by rw [hx, hy]; push_cast; ring⟩

theorem isDec4_roundTo (q : ℚ) : IsDec4 (roundTo 4 q) := ⟨rhe (q * 10 ^ 4), rfl⟩

theorem roundTo_of_isDec4 {q : ℚ} (h : IsDec4 q) : roundTo 4 q = q := by
  obtain ⟨z, hz⟩ := h
  subst hz
  rw [roundTo, div_mul_cancel₀ _ (ne_of_gt (pow10_pos 4)), rhe_intCast]

/-! ## C8: `Tasa_Devolucion` on a zero `Venta_Bruta_Total` -/

/-- C8: on the candidate dimension rows built from `pureReturnRows`, the
pure-return article B gets `Tasa_Devolucion = +inf`, not 0: its
`Venta_Bruta_Total` is 0 while `Venta_Devolucion_Total` is 150, and
`fillna(0)` does not replace the infinity that `150.0 / 0.0` produces. -/
theorem c8_tasa_infinite_on_pure_return :
    (dimCandidates pureReturnRows (makeFact pureReturnRows)).map (·.tasa)
      = [Tasa.fin 0, Tasa.posInf] := by decide

/-! ## C7: the sniffer's validity predicate -/

/-- C7 counterexample: `has_valid_columns` accepts a table with a single
matching column, because `"precio total"` contains two keywords (`prec`
and `total`) and the predicate counts (column, keyword) pairs; the claim's
distinct-column reading rejects it. -/
theorem c7_counterexample :
    has_valid_columns sniffCex = true ∧ validColumnsSpec sniffCex = false := by decide

/-- C7 (amended): `has_valid_columns` accepts exactly the non-empty parses
with at least 3 columns and at least 2 (column, keyword) containment
pairs, a column containing several keywords being counted once per
keyword. -/
theorem c7_amended (t : RTable) :
    has_valid_columns t = true ↔
      t.rows ≠ [] ∧ 3 ≤ t.header.length ∧
        2 ≤ (t.header.map fun c =>
          (sniffKeywords.filter fun kw =>
            containsSub (removeAccents (pyLower c)) kw).length).sum := by
  unfold has_valid_columns
  split
  · rename_i hguard
    constructor
    · intro hfalse
      exact absurd hfalse (by simp)
    · rintro ⟨h1, h2, h3⟩
      exfalso
      simp only [Bool.or_eq_true, List.isEmpty_iff, decide_eq_true_eq, or_assoc] at hguard
      rcases hguard with h | h | h
      · exact h1 h
      · rw [h] at h2
        simp at h2
      · omega
  · rename_i hguard
    simp only [Bool.or_eq_true, List.isEmpty_iff, decide_eq_true_eq, not_or, not_lt] at hguard
    obtain ⟨⟨hr, hh⟩, hl⟩ := hguard
    simp only [decide_eq_true_eq, List.map_map]
    exact ⟨fun hm => ⟨hr, hl, hm⟩, fun hm => hm.2.2⟩

/-! ## Lemmas about the fuzzy-scan mapping -/

theorem chainRule_ne_articulo (c : String) : chainRule c ≠ some "Articulo" := by
  unfold chainRule
  split
  · simp
  · split
    · simp
    · split
      · simp
      · split
        · simp
        · simp

theorem ruleFor_true_eq_chain (c : String) : ruleFor true c = chainRule c := by
  unfold ruleFor
  simp

theorem ruleFor_false_of_art {c : String} (h : artMatch c = true) :
    ruleFor false c = some "Articulo" := by
  unfold ruleFor
  simp [h]

theorem ruleFor_of_not_art {found : Bool} {c : String} (h : artMatch c = false) :
    ruleFor found c = chainRule c := by
  unfold ruleFor
  simp [h]

/-- Keys outside the scanned labels are never touched. -/
theorem scanCols_frame (L : List String) (found : Bool) (m : String → Option String)
    (x : String) (hx : x ∉ L) : scanCols L found m x = m x := by
  induction L generalizing found m with
  | nil => rfl
  | cons col rest ih =>
    have hxc : x ≠ col := fun h => hx (h ▸ List.mem_cons_self col rest)
    have hxr : x ∉ rest := fun h => hx (List.mem_cons_of_mem col h)
    show scanCols (col :: rest) found m x = m x
    rw [scanCols]
    cases h : ruleFor found (clean2 col) with
    | none => simp only [h]; exact ih _ _ hxr
    | some tgt =>
      simp only [h]
      rw [ih _ _ hxr]
      simp [hxc]

/-- Once `articulo_found` is true, a key can only end at `some "Articulo"`
if it already was there: later assignments are chain targets. -/
theorem scanCols_true_articulo_mono (L : List String) (m : String → Option String)
    (x : String) (h : scanCols L true m x = some "Articulo") : m x = some "Articulo" := by
  induction L generalizing m with
  | nil => exact h
  | cons col rest ih =>
    rw [scanCols] at h
    cases hr : ruleFor true (clean2 col) with
    | none =>
      simp only [hr] at h
      simp only [Bool.true_or] at h
      exact ih _ h
    | some tgt =>
      simp only [hr, Bool.true_or] at h
      have h2 := ih _ h
      by_cases hxc : x = col
      · rw [if_pos hxc] at h2
        exfalso
        have htgt : tgt = "Articulo" := Option.some.inj h2
        subst htgt
        exact chainRule_ne_articulo (clean2 col) ((ruleFor_true_eq_chain (clean2 col)).symm.trans hr)
      · rwa [if_neg hxc] at h2

/-- When no scanned label art-matches, no key can end at `some "Articulo"`
(whatever the flag). -/
theorem scanCols_no_art (L : List String) (found : Bool) (m : String → Option String)
    (hL : ∀ l ∈ L, artMatch (clean2 l) = false)
    (hm : ∀ y, m y ≠ some "Articulo") (x : String) :
    scanCols L found m x ≠ some "Articulo" := by
  induction L generalizing found m with
  | nil => exact hm x
  | cons col rest ih =>
    have hcol : artMatch (clean2 col) = false := hL col (List.mem_cons_self col rest)
    have hrest : ∀ l ∈ rest, artMatch (clean2 l) = false :=
      fun l hl => hL l (List.mem_cons_of_mem col hl)
    rw [scanCols]
    rw [ruleFor_of_not_art hcol]
    cases hc : chainRule (clean2 col) with
    | none =>
      simp only []
      exact ih _ _ hrest hm
    | some tgt =>
      simp only []
      apply ih _ _ hrest
      intro y
      by_cases hy : y = col
      · rw [if_pos hy]
        intro hcontra
        exact chainRule_ne_articulo (clean2 col) (hc.trans (congrArg some (Option.some.inj hcontra)))
      · rw [if_neg hy]
        exact hm y

/-- With pairwise-distinct labels, the first art-matching label is mapped
to `Articulo` and no other key is. -/
theorem scanCols_first_art (P : List String) (a : String) (S : List String)
    (hP : ∀ l ∈ P, artMatch (clean2 l) = false) (ha : artMatch (clean2 a) = true)
    (hnd : (P ++ a :: S).Nodup) (m : String → Option String)
    (hm : ∀ y, m y ≠ some "Articulo") :
    scanCols (P ++ a :: S) false m a = some "Articulo" ∧
      ∀ x, x ≠ a → scanCols (P ++ a :: S) false m x ≠ some "Articulo" := by
  induction P generalizing m with
  | nil =>
    simp only [List.nil_append]
    rw [scanCols, ruleFor_false_of_art ha]
    simp only [Bool.false_or, ha]
    have hnotin : a ∉ S := by
      have hnd2 : (a :: S).Nodup := by simpa using hnd
      exact (List.nodup_cons.1 hnd2).1
    constructor
    · rw [scanCols_frame S true _ a hnotin]
      simp
    · intro x hx hcontra
      have h2 := scanCols_true_articulo_mono S _ x hcontra
      rw [if_neg hx] at h2
      exact hm x h2
  | cons p P' ih =>
    have hp : artMatch (clean2 p) = false := hP p (List.mem_cons_self p P')
    have hP' : ∀ l ∈ P', artMatch (clean2 l) = false :=
      fun l hl => hP l (List.mem_cons_of_mem p hl)
    have hnd' : (P' ++ a :: S).Nodup := (List.nodup_cons.1 hnd).2
    simp only [List.cons_append]
    rw [scanCols, ruleFor_of_not_art hp]
    simp only [hp, Bool.or_false]
    cases hc : chainRule (clean2 p) with
    | none =>
      simp only []
      exact ih hP' hnd' m hm
    | some tgt =>
      simp only []
      apply ih hP' hnd'
      intro y
      by_cases hy : y = p
      · rw [if_pos hy]
        intro hcontra
        exact chainRule_ne_articulo (clean2 p) (hc.trans (congrArg some (Option.some.inj hcontra)))
      · rw [if_neg hy]
        exact hm y

/-! ## C2: the normalization invariant on `Articulo` -/

/-- C2 counterexample: on `dupNameCex` the first fuzzy match (`Producto`)
is renamed `Articulo` while the later column literally named `Articulo`
keeps its name, so the result has two `Articulo` columns, not exactly one;
and on `overwriteCex` a column art-matches yet normalization raises,
because the matched dict key is overwritten by its duplicate's
`Descripcion` match. -/
theorem c2_counterexample :
    super_normalize_columns dupNameCex = .ok ⟨["Articulo", "Articulo"], []⟩ ∧
      (super_normalize_columns overwriteCex).isOk = false := by decide

/-- C2 (amended): when no cleaned label art-matches, normalization raises
the schema error; when the cleaned labels are pairwise distinct and the
first art-matching one exists, normalization returns a table whose column
at that position is named `Articulo`, and any other column named
`Articulo` was already literally labeled `Articulo` (so the output can
carry more than one `Articulo` column). -/
theorem c2_amended (t : RTable) :
    ((cleanedHeader t).all (fun l => !artMatch (clean2 l)) = true →
      (super_normalize_columns t).isOk = false)
    ∧ ∀ P a S, (cleanedHeader t).Nodup → cleanedHeader t = P ++ a :: S →
        (∀ l ∈ P, artMatch (clean2 l) = false) → artMatch (clean2 a) = true →
        (super_normalize_columns t).isOk = true ∧
          (okHeader (super_normalize_columns t)).get? P.length = some "Articulo" ∧
          ∀ j, j ≠ P.length →
            (okHeader (super_normalize_columns t)).get? j = some "Articulo" →
            (cleanedHeader t).get? j = some "Articulo" := by
  constructor
  · intro hall
    have hL : ∀ l ∈ cleanedHeader t, artMatch (clean2 l) = false := by
      intro l hl
      have := List.all_eq_true.1 hall l hl
      simpa using this
    have hnomem : "Articulo" ∉ normalizeHeader t.header := by
      intro hmem
      rw [normalizeHeader] at hmem
      obtain ⟨l, hl, hval⟩ := List.mem_map.1 hmem
      cases hM : scanCols (t.header.map clean1) false (fun _ => none) l with
      | none =>
        rw [hM] at hval
        simp only [Option.getD_none] at hval
        have : artMatch (clean2 l) = false := hL l hl
        rw [hval] at this
        exact absurd this (by decide)
      | some v =>
        rw [hM] at hval
        simp only [Option.getD_some] at hval
        exact scanCols_no_art (t.header.map clean1) false _ hL (fun y h => by simp at h) l
          (hM.trans (congrArg some hval))
    rw [super_normalize_columns, if_neg hnomem]
    rfl
  · intro P a S hnd hsplit hP ha
    have hML := scanCols_first_art P a S hP ha (hsplit ▸ hnd) (fun _ => none)
      (fun y h => by simp at h)
    have hMa : scanCols (cleanedHeader t) false (fun _ => none) a = some "Articulo" := by
      rw [hsplit]; exact hML.1
    have hMx : ∀ x, x ≠ a →
        scanCols (cleanedHeader t) false (fun _ => none) x ≠ some "Articulo" := by
      intro x hx
      rw [hsplit]; exact hML.2 x hx
    have hhead : normalizeHeader t.header =
        (cleanedHeader t).map
          (fun l => ((scanCols (cleanedHeader t) false (fun _ => none)) l).getD l) := rfl
    have hmem : "Articulo" ∈ normalizeHeader t.header := by
      rw [hhead]
      refine List.mem_map.2 ⟨a, ?_, ?_⟩
      · rw [hsplit]
        exact List.mem_append_right P (List.mem_cons_self a S)
      · rw [hMa]
        rfl
    have hok : super_normalize_columns t = .ok ⟨normalizeHeader t.header, t.rows⟩ := by
      rw [super_normalize_columns, if_pos hmem]
    refine ⟨by rw [hok]; rfl, ?_, ?_⟩
    · rw [hok]
      show (normalizeHeader t.header).get? P.length = some "Articulo"
      rw [hhead, hsplit, List.map_append]
      rw [List.get?_append_right (by simp)]
      simp only [List.length_map, Nat.sub_self, List.map_cons]
      rw [hML.1]
      rfl
    · intro j hj hjval
      rw [hok] at hjval
      show (cleanedHeader t).get? j = some "Articulo"
      have hjval' : (normalizeHeader t.header).get? j = some "Articulo" := hjval
      rw [hhead, List.get?_map] at hjval'
      cases hLj : (cleanedHeader t).get? j with
      | none => rw [hLj] at hjval'; exact absurd hjval' (by simp)
      | some l =>
        rw [hLj] at hjval'
        simp only [Option.map_some'] at hjval'
        have hval : ((scanCols (cleanedHeader t) false (fun _ => none)) l).getD l = "Articulo" :=
          Option.some.inj hjval'
        have hla : l ≠ a := by
          intro hcontra
          subst hcontra
          rw [hsplit] at hLj
          have hnd2 : (P ++ l :: S).Nodup := hsplit ▸ hnd
          rw [List.nodup_append] at hnd2
          rcases Nat.lt_or_ge j P.length with hlt | hge
          · have hmemP : l ∈ P := by
              rw [List.get?_append hlt] at hLj
              exact List.get?_mem hLj
            exact hnd2.2.2 hmemP (List.mem_cons_self l S)
          · have hgt : P.length < j := lt_of_le_of_ne hge (Ne.symm hj)
            rw [List.get?_append_right hge] at hLj
            cases hk : j - P.length with
            | zero => omega
            | succ k =>
              rw [hk] at hLj
              simp only [List.get?_cons_succ] at hLj
              have hmemS : l ∈ S := List.get?_mem hLj
              exact (List.nodup_cons.1 hnd2.2.1).1 hmemS
        cases hM : (scanCols (cleanedHeader t) false (fun _ => none)) l with
        | none =>
          rw [hM] at hval
          simp only [Option.getD_none] at hval
          rw [hval]
        | some v =>
          rw [hM] at hval
          simp only [Option.getD_some] at hval
          exact absurd (hM.trans (congrArg some hval)) (hMx l hla)

/-- C2 witness: the amended statement applied to a concrete header
`["Producto", "Descripcion", "Total"]`. -/
theorem c2_witness :
    (super_normalize_columns c2WitnessTable).isOk = true ∧
      (okHeader (super_normalize_columns c2WitnessTable)).get? 0 = some "Articulo" :=
  ⟨((c2_amended c2WitnessTable).2 [] "Producto" ["Descripcion", "Total"] (by decide) rfl
      (by intro l hl; cases hl) (by decide)).1,
   ((c2_amended c2WitnessTable).2 [] "Producto" ["Descripcion", "Total"] (by decide) rfl
      (by intro l hl; cases hl) (by decide)).2.1⟩

/-! ## C9: normalization on canonical tables -/

theorem clean1_canonical {l : String} (hl : l ∈ canonicalLabels) : clean1 l = l := by
  simp only [canonicalLabels, List.mem_cons, List.not_mem_nil, or_false] at hl
  rcases hl with rfl | rfl | rfl | rfl | rfl | rfl <;> decide

theorem ruleFor_canonical (found : Bool) {l : String} (hl : l ∈ canonicalLabels) :
    ruleFor found (clean2 l) = none ∨ ruleFor found (clean2 l) = some l := by
  simp only [canonicalLabels, List.mem_cons, List.not_mem_nil, or_false] at hl
  rcases hl with rfl | rfl | rfl | rfl | rfl | rfl <;> cases found <;>
    first
      | exact Or.inl (by decide)
      | exact Or.inr (by decide)

/-- On canonical labels the scan only ever records identity entries. -/
theorem scanCols_canonical (L : List String) (found : Bool) (m : String → Option String)
    (hL : ∀ l ∈ L, l ∈ canonicalLabels)
    (hm : ∀ y, m y = none ∨ m y = some y) (x : String) :
    scanCols L found m x = none ∨ scanCols L found m x = some x := by
  induction L generalizing found m with
  | nil => exact hm x
  | cons col rest ih =>
    have hcol : col ∈ canonicalLabels := hL col (List.mem_cons_self col rest)
    have hrest : ∀ l ∈ rest, l ∈ canonicalLabels :=
      fun l hl => hL l (List.mem_cons_of_mem col hl)
    rw [scanCols]
    rcases ruleFor_canonical found hcol with hr | hr
    · rw [hr]
      exact ih _ _ hrest hm
    · rw [hr]
      apply ih _ _ hrest
      intro y
      dsimp only
      by_cases hy : y = col
      · subst hy
        right
        simp
      · rw [if_neg hy]
        exact hm y

/-- C9 counterexample: normalization succeeds on `nonIdempotentCex` but is
not idempotent — the second pass renames the unmapped art-matching column
`Particular` to `Articulo`, because after the first pass no column before
it art-matches any more. -/
theorem c9_counterexample :
    (super_normalize_columns nonIdempotentCex).bind super_normalize_columns ≠
      super_normalize_columns nonIdempotentCex := by decide

/-- C9 (amended): on a table whose labels are canonical (`Articulo` plus
any of the other canonical names), normalization is the identity — every
label and every cell unchanged — and hence applying it twice to such a
table equals applying it once. -/
theorem c9_amended (t : RTable) (hc : ∀ l ∈ t.header, l ∈ canonicalLabels)
    (hart : "Articulo" ∈ t.header) :
    super_normalize_columns t = .ok t ∧
      (super_normalize_columns t).bind super_normalize_columns = super_normalize_columns t := by
  have hclean : t.header.map clean1 = t.header := by
    rw [List.map_congr_left (fun l hl => clean1_canonical (hc l hl))]
    exact List.map_id t.header
  have hhead : normalizeHeader t.header = t.header := by
    rw [normalizeHeader]
    simp only [hclean]
    rw [List.map_congr_left (g := id)]
    · exact List.map_id t.header
    · intro l hl
      rcases scanCols_canonical t.header false (fun _ => none) hc
          (fun y => Or.inl rfl) l with hM | hM
      · rw [hM]
        rfl
      · rw [hM]
        rfl
  have hok : super_normalize_columns t = .ok t := by
    rw [super_normalize_columns]
    simp only [hhead]
    rw [if_pos hart]
  refine ⟨hok, ?_⟩
  rw [hok]
  show super_normalize_columns t = Except.ok t
  exact hok

/-- C9 witness: the amended statement on the concrete canonical table
`["Articulo", "Descripcion", "Sucursal"]`. -/
theorem c9_witness :
    super_normalize_columns c9WitnessTable = .ok c9WitnessTable ∧
      (super_normalize_columns c9WitnessTable).bind super_normalize_columns =
        super_normalize_columns c9WitnessTable :=
  c9_amended c9WitnessTable (by decide) (by decide)

/-! ## C3: error handling of the extraction and normalization stages -/

/-- C3 counterexample: a single readable file whose columns lack any
`Articulo` match.  The claim says a normalization failure for a file is
caught, the file skipped and the run continued; the code instead
normalizes once, after consolidation, outside any try/except — so the
whole run aborts with the schema error. -/
theorem c3_counterexample :
    runToNormalize [("SUC1", Except.ok noArtTable)] =
      .error "La columna 'Articulo' no existe. Ver DEBUG arriba." := by decide

/-- C3 (amended): a per-file read (sniffing/parse) failure is skipped and
extraction continues with the remaining files, producing exactly what the
remaining files alone produce; a normalization failure, however, happens
once on the consolidated table and becomes the error of the whole run. -/
theorem c3_amended :
    (∀ (pre post : List (String × Except String RTable)) (name e : String),
        pre ++ post ≠ [] →
        extract_all_files (pre ++ (name, Except.error e) :: post) =
          extract_all_files (pre ++ post))
    ∧ ∀ (files : List (String × Except String RTable)) (t : RTable) (e : String),
        extract_all_files files = .ok t → super_normalize_columns t = .error e →
        runToNormalize files = .error e := by
  constructor
  · intro pre post name e hne
    unfold extract_all_files
    have h1 : (pre ++ (name, Except.error e) :: post).isEmpty = false := by
      simp
    have h2 : (pre ++ post).isEmpty = false := by
      simpa [List.isEmpty_iff] using hne
    rw [h1, h2]
    simp only [Bool.false_eq_true, if_false]
    have hdf : (pre ++ (name, Except.error e) :: post).filterMap
        (fun f => match f.2 with
          | .ok df => some (addSucursal df f.1)
          | .error _ => none) =
        (pre ++ post).filterMap
        (fun f => match f.2 with
          | .ok df => some (addSucursal df f.1)
          | .error _ => none) := by
      rw [List.filterMap_append, List.filterMap_append, List.filterMap_cons]
    rw [hdf]
  · intro files t e h1 h2
    rw [runToNormalize, h1]
    simpa using h2

/-- C3 witness: the amended skip property applied to one good file and one
failing file. -/
theorem c3_witness :
    (([(("SUC1" : String), Except.ok fileTableA)] : List (String × Except String RTable)) ≠ []) ∧
      extract_all_files [("SUC1", Except.ok fileTableA), ("SUC2", Except.error "ParserError")] =
        extract_all_files [("SUC1", Except.ok fileTableA)] :=
  ⟨by decide,
   c3_amended.1 [("SUC1", Except.ok fileTableA)] [] "SUC2" "ParserError" (by decide)⟩

/-! ## Lemmas about `calculate_pareto` -/

/-- Inversion of a successful `calculate_pareto` run. -/
theorem calculate_pareto_ok {rows : List CleanRow} {f : List FactRow} {d : List DimRow}
    (h : calculate_pareto rows = .ok (f, d)) :
    ((dimCandidates rows (makeFact rows)).filter fun x => 0 < x.vNetaTotal) ≠ [] ∧
      d = buildDim
          (((((dimCandidates rows (makeFact rows)).filter fun x => 0 < x.vNetaTotal).insertionSort
              fun a b => b.vNetaTotal ≤ a.vNetaTotal).map (·.vNetaTotal)).sum)
          ((((dimCandidates rows (makeFact rows)).filter fun x => 0 < x.vNetaTotal).insertionSort
              fun a b => b.vNetaTotal ≤ a.vNetaTotal)) 0 0 ∧
      f = (makeFact rows).filter fun fr => decide (fr.articulo ∈ d.map (·.articulo)) := by
  rw [calculate_pareto] at h
  by_cases hemp :
      ((dimCandidates rows (makeFact rows)).filter fun x => 0 < x.vNetaTotal).isEmpty
  · rw [if_pos hemp] at h
    cases h
  · rw [if_neg hemp] at h
    simp only [Except.ok.injEq, Prod.mk.injEq] at h
    obtain ⟨hfact, hdim⟩ := h
    refine ⟨by simpa [List.isEmpty_iff] using hemp, hdim.symm, ?_⟩
    rw [← hfact, ← hdim]

theorem buildDim_cls (total : ℚ) :
    ∀ (l : List DRow) (acc : ℚ) (i : ℕ) (r : DimRow),
      r ∈ buildDim total l acc i → r.cls = classifyABC r.pa
  | [], _, _, r, h => absurd h (List.not_mem_nil r)
  | dr :: rest, acc, i, r, h => by
    rw [buildDim] at h
    rcases List.mem_cons.1 h with rfl | h2
    · rfl
    · exact buildDim_cls total rest _ _ r h2

theorem buildDim_length (total : ℚ) :
    ∀ (l : List DRow) (acc : ℚ) (i : ℕ), (buildDim total l acc i).length = l.length
  | [], _, _ => rfl
  | dr :: rest, acc, i => by
    rw [buildDim]
    simp only [List.length_cons]
    rw [buildDim_length total rest _ _]

theorem buildDim_rankings (total : ℚ) :
    ∀ (l : List DRow) (acc : ℚ) (i : ℕ),
      (buildDim total l acc i).map (·.ranking) = List.range' (i + 1) l.length
  | [], _, _ => rfl
  | dr :: rest, acc, i => by
    rw [buildDim]
    simp only [List.map_cons, List.length_cons, List.range'_succ]
    rw [buildDim_rankings total rest _ _]

theorem buildDim_map_vNeta (total : ℚ) :
    ∀ (l : List DRow) (acc : ℚ) (i : ℕ),
      (buildDim total l acc i).map (·.vNetaTotal) = l.map (·.vNetaTotal)
  | [], _, _ => rfl
  | dr :: rest, acc, i => by
    rw [buildDim]
    simp only [List.map_cons]
    rw [buildDim_map_vNeta total rest _ _]

theorem buildDim_map_articulo (total : ℚ) :
    ∀ (l : List DRow) (acc : ℚ) (i : ℕ),
      (buildDim total l acc i).map (·.articulo) = l.map (·.articulo)
  | [], _, _ => rfl
  | dr :: rest, acc, i => by
    rw [buildDim]
    simp only [List.map_cons]
    rw [buildDim_map_articulo total rest _ _]

/-- Along the built dimension: every cumulative share is at least the
incoming accumulator and the list of cumulative shares is
non-decreasing. -/
theorem buildDim_pa_mono (total : ℚ) :
    ∀ (l : List DRow) (acc : ℚ) (i : ℕ),
      IsDec4 acc → (∀ dr ∈ l, 0 ≤ roundTo 4 (dr.vNetaTotal / total)) →
      (∀ r ∈ buildDim total l acc i, acc ≤ r.pa) ∧
        List.Chain' (fun a b => a.pa ≤ b.pa) (buildDim total l acc i)
  | [], _, _, _, _ => ⟨fun r h => absurd h (List.not_mem_nil r), List.chain'_nil⟩
  | dr :: rest, acc, i, hacc, hpg => by
    have hpg0 : 0 ≤ roundTo 4 (dr.vNetaTotal / total) :=
      hpg dr (List.mem_cons_self dr rest)
    have hacc' : IsDec4 (acc + roundTo 4 (dr.vNetaTotal / total)) :=
      isDec4_add hacc (isDec4_roundTo _)
    have hpa : roundTo 4 (acc + roundTo 4 (dr.vNetaTotal / total)) =
        acc + roundTo 4 (dr.vNetaTotal / total) := roundTo_of_isDec4 hacc'
    have ih := buildDim_pa_mono total rest (acc + roundTo 4 (dr.vNetaTotal / total)) (i + 1)
      hacc' (fun x hx => hpg x (List.mem_cons_of_mem dr hx))
    rw [buildDim]
    constructor
    · intro r hr
      rcases List.mem_cons.1 hr with rfl | h2
      · show acc ≤ roundTo 4 (acc + roundTo 4 (dr.vNetaTotal / total))
        rw [hpa]
        linarith
      · have := ih.1 r h2
        have h3 : acc ≤ acc + roundTo 4 (dr.vNetaTotal / total) := by linarith
        linarith
    · rw [List.chain'_cons']
      refine ⟨?_, ih.2⟩
      intro b hb
      have hbmem := List.mem_of_mem_head? hb
      have := ih.1 b hbmem
      show roundTo 4 (acc + roundTo 4 (dr.vNetaTotal / total)) ≤ b.pa
      rw [hpa]
      exact this

theorem getLast?_cons_of_ne {α : Type} (a : α) (l : List α) (hl : l ≠ []) :
    (a :: l).getLast? = l.getLast? := by
  cases l with
  | nil => exact absurd rfl hl
  | cons b t => exact List.getLast?_cons_cons

/-- The last cumulative share is the incoming accumulator plus the sum of
all rounded shares. -/
theorem buildDim_getLast_pa (total : ℚ) :
    ∀ (l : List DRow) (acc : ℚ) (i : ℕ) (r : DimRow),
      IsDec4 acc → (buildDim total l acc i).getLast? = some r →
      r.pa = acc + (l.map fun dr => roundTo 4 (dr.vNetaTotal / total)).sum
  | [], _, _, r, _, h => by cases h
  | dr :: rest, acc, i, r, hacc, h => by
    have hacc' : IsDec4 (acc + roundTo 4 (dr.vNetaTotal / total)) :=
      isDec4_add hacc (isDec4_roundTo _)
    cases rest with
    | nil =>
      rw [buildDim, buildDim] at h
      simp only [List.getLast?_singleton, Option.some.injEq] at h
      subst h
      show roundTo 4 (acc + roundTo 4 (dr.vNetaTotal / total)) = _
      rw [roundTo_of_isDec4 hacc']
      simp
    | cons e rest' =>
      rw [buildDim] at h
      have hne : buildDim total (e :: rest') (acc + roundTo 4 (dr.vNetaTotal / total)) (i + 1) ≠
          [] := by
        intro hcontra
        have := buildDim_length total (e :: rest') (acc + roundTo 4 (dr.vNetaTotal / total))
          (i + 1)
        rw [hcontra] at this
        simp at this
      rw [getLast?_cons_of_ne _ _ hne] at h
      have ih := buildDim_getLast_pa total (e :: rest')
        (acc + roundTo 4 (dr.vNetaTotal / total)) (i + 1) r hacc' h
      rw [ih]
      simp only [List.map_cons, List.sum_cons]
      ring

/-- Accumulated rounding error of the 4-decimal shares. -/
theorem sum_map_roundTo4_near (qs : List ℚ) :
    |(qs.map (roundTo 4)).sum - qs.sum| ≤ (qs.length : ℚ) * (1 / 20000) := by
  induction qs with
  | nil => simp
  | cons q rest ih =>
    simp only [List.map_cons, List.sum_cons, List.length_cons]
    have h1 := abs_roundTo_sub 4 q
    have h2 : (1 : ℚ) / (2 * 10 ^ 4) = 1 / 20000 := by norm_num
    rw [h2] at h1
    calc |roundTo 4 q + (rest.map (roundTo 4)).sum - (q + rest.sum)|
        = |(roundTo 4 q - q) + ((rest.map (roundTo 4)).sum - rest.sum)| := by ring_nf
      _ ≤ |roundTo 4 q - q| + |(rest.map (roundTo 4)).sum - rest.sum| := abs_add _ _
      _ ≤ 1 / 20000 + (rest.length : ℚ) * (1 / 20000) := add_le_add h1 ih
      _ = ((rest.length : ℚ) + 1) * (1 / 20000) := by ring
      _ = ((rest.length + 1 : ℕ) : ℚ) * (1 / 20000) := by push_cast; ring

theorem sum_map_div_drow (l : List DRow) (t : ℚ) :
    (l.map fun dr => dr.vNetaTotal / t).sum = (l.map (·.vNetaTotal)).sum / t := by
  induction l with
  | nil => simp
  | cons dr rest ih =>
    simp only [List.map_cons, List.sum_cons, ih]
    ring

theorem sum_map_sub_clean (l : List CleanRow) (f g : CleanRow → ℚ) :
    (l.map fun x => f x - g x).sum = (l.map f).sum - (l.map g).sum := by
  induction l with
  | nil => simp
  | cons x rest ih =>
    simp only [List.map_cons, List.sum_cons, ih]
    ring

/-- The gross/return split reassembles the signed net sale. -/
theorem bruta_sub_devolucion (x : ℚ) : ventaBrutaOf x - ventaDevolucionOf x = x := by
  rw [ventaBrutaOf, ventaDevolucionOf]
  split_ifs with h1 h2 h2
  · linarith
  · simp
  · rw [abs_of_neg h2]
    ring
  · have : x = 0 := le_antisymm (not_lt.1 h1) (not_lt.1 h2)
    simp [this]

/-- Every fact row's article comes from some clean row. -/
theorem makeFact_art_from_rows {rows : List CleanRow} {fr : FactRow}
    (h : fr ∈ makeFact rows) : ∃ r ∈ rows, r.articulo = fr.articulo := by
  rw [makeFact] at h
  obtain ⟨k, hk, rfl⟩ := List.mem_map.1 h
  rw [factKeys] at hk
  have hk2 := List.mem_dedup.1 hk
  obtain ⟨r, hr, hkr⟩ := List.mem_map.1 hk2
  exact ⟨r, hr, by rw [← hkr]⟩

/-- Every candidate dimension article comes from some fact row. -/
theorem dimCandidates_art_from_fact {rows : List CleanRow} {fact : List FactRow} {dr : DRow}
    (h : dr ∈ dimCandidates rows fact) : ∃ fr ∈ fact, fr.articulo = dr.articulo := by
  rw [dimCandidates] at h
  obtain ⟨a, ha, rfl⟩ := List.mem_map.1 h
  rw [dimKeys] at ha
  have ha2 := List.mem_dedup.1 ha
  obtain ⟨fr, hfr, hfra⟩ := List.mem_map.1 ha2
  exact ⟨fr, hfr, hfra⟩

/-- Splitting the membership filter at the head of the key list. -/
theorem sum_filter_mem_cons (fact : List FactRow) (k : String) (K : List String)
    (f : FactRow → ℚ) (hk : k ∉ K) :
    ((fact.filter fun fr => decide (fr.articulo ∈ k :: K)).map f).sum =
      ((fact.filter fun fr => fr.articulo = k).map f).sum +
        ((fact.filter fun fr => decide (fr.articulo ∈ K)).map f).sum := by
  induction fact with
  | nil => simp
  | cons fr rest ih =>
    rw [List.filter_cons, List.filter_cons, List.filter_cons]
    by_cases h1 : fr.articulo = k
    · have hmem : decide (fr.articulo ∈ k :: K) = true := by simp [h1]
      have heq : decide (fr.articulo = k) = true := by simp [h1]
      have hnot : decide (fr.articulo ∈ K) = false := by simp [h1, hk]
      rw [hmem, hnot, heq]
      simp only [Bool.false_eq_true, if_true, if_false, List.map_cons, List.sum_cons, ih]
      ring
    · by_cases h2 : fr.articulo ∈ K
      · have hmem : decide (fr.articulo ∈ k :: K) = true := by simp [h2]
        have heq : decide (fr.articulo = k) = false := by simp [h1]
        have hin : decide (fr.articulo ∈ K) = true := by simp [h2]
        rw [hmem, hin, heq]
        simp only [Bool.false_eq_true, if_true, if_false, List.map_cons, List.sum_cons, ih]
        ring
      · have hmem : decide (fr.articulo ∈ k :: K) = false := by simp [h1, h2]
        have heq : decide (fr.articulo = k) = false := by simp [h1]
        have hin : decide (fr.articulo ∈ K) = false := by simp [h2]
        rw [hmem, hin, heq]
        simp only [Bool.false_eq_true, if_false, ih]

/-- Re-grouping: summing the per-article group sums over distinct keys
equals summing over the fact rows whose article is one of the keys. -/
theorem regroup_sum (K : List String) (fact : List FactRow) (f : FactRow → ℚ)
    (hK : K.Nodup) :
    (K.map fun a => fsum fact a f).sum =
      ((fact.filter fun fr => decide (fr.articulo ∈ K)).map f).sum := by
  induction K with
  | nil => simp
  | cons k K ih =>
    have hk : k ∉ K := (List.nodup_cons.1 hK).1
    rw [List.map_cons, List.sum_cons, ih (List.nodup_cons.1 hK).2,
      sum_filter_mem_cons fact k K f hk]
    rfl

/-! ## C5: ABC class boundaries -/

/-- C5: in every dimension output, class A means cumulative share ≤ 0.80,
class B means a share in ]0.80, 0.95], class C means a share above
0.95. -/
theorem c5_abc_boundaries (rows : List CleanRow) (f : List FactRow) (d : List DimRow)
    (h : calculate_pareto rows = .ok (f, d)) :
    ∀ r ∈ d, (r.cls = ABC.A → r.pa ≤ 0.80) ∧
      (r.cls = ABC.B → 0.80 < r.pa ∧ r.pa ≤ 0.95) ∧
      (r.cls = ABC.C → 0.95 < r.pa) := by
  obtain ⟨-, hd, -⟩ := calculate_pareto_ok h
  intro r hr
  rw [hd] at hr
  have hcls := buildDim_cls _ _ _ _ r hr
  rw [classifyABC] at hcls
  split_ifs at hcls with h1 h2
  · refine ⟨fun _ => h1, fun hB => ?_, fun hC => ?_⟩
    · rw [hcls] at hB
      cases hB
    · rw [hcls] at hC
      cases hC
  · refine ⟨fun hA => ?_, fun _ => ⟨lt_of_not_le h1, h2⟩, fun hC => ?_⟩
    · rw [hcls] at hA
      cases hA
    · rw [hcls] at hC
      cases hC
  · refine ⟨fun hA => ?_, fun hB => ?_, fun _ => lt_of_not_le h2⟩
    · rw [hcls] at hA
      cases hA
    · rw [hcls] at hB
      cases hB

/-- C5 witness: the boundaries at the concrete class-B row of
`ventasC5`. -/
theorem c5_witness :
    (c5Row.cls = ABC.A → c5Row.pa ≤ 0.80) ∧
      (c5Row.cls = ABC.B → 0.80 < c5Row.pa ∧ c5Row.pa ≤ 0.95) ∧
      (c5Row.cls = ABC.C → 0.95 < c5Row.pa) :=
  c5_abc_boundaries ventasC5 (factOf ventasC5) (dimOf ventasC5) (by decide) c5Row (by decide)

/-! ## C6: monotone cumulative share summing to 1 -/

/-- C6: the dimension rows carry rankings 1..n in list order, their
cumulative shares are non-decreasing, and the last cumulative share equals
1 up to the accumulated 4-decimal rounding of the per-item shares (at most
half an ulp, `1/20000`, per item). -/
theorem c6_cumulative (rows : List CleanRow) (f : List FactRow) (d : List DimRow)
    (h : calculate_pareto rows = .ok (f, d)) :
    d.map (·.ranking) = List.range' 1 d.length ∧
      List.Chain' (fun a b => a.pa ≤ b.pa) d ∧
      ∀ r, d.getLast? = some r → |r.pa - 1| ≤ (d.length : ℚ) * (1 / 20000) := by
  obtain ⟨hne, hd, -⟩ := calculate_pareto_ok h
  set P := (dimCandidates rows (makeFact rows)).filter (fun x => 0 < x.vNetaTotal) with hP
  set S := P.insertionSort (fun a b => b.vNetaTotal ≤ a.vNetaTotal) with hS
  set T := (S.map (·.vNetaTotal)).sum with hT
  have hperm : S.Perm P := List.perm_insertionSort _ P
  have hposS : ∀ x ∈ S, 0 < x.vNetaTotal := by
    intro x hx
    have hxP : x ∈ P := hperm.mem_iff.1 hx
    exact of_decide_eq_true (List.mem_filter.1 hxP).2
  have hSne : S ≠ [] := by
    intro hSnil
    exact hne (List.Perm.eq_nil (hSnil ▸ hperm.symm))
  have hTpos : 0 < T := by
    rw [hT]
    apply List.sum_pos
    · intro q hq
      obtain ⟨x, hx, rfl⟩ := List.mem_map.1 hq
      exact hposS x hx
    · intro hnil
      exact hSne (List.map_eq_nil.1 hnil)
  have hpg : ∀ dr ∈ S, 0 ≤ roundTo 4 (dr.vNetaTotal / T) := fun dr hdr =>
    roundTo_nonneg (div_nonneg (hposS dr hdr).le hTpos.le)
  refine ⟨?_, ?_, ?_⟩
  · rw [hd, buildDim_rankings, buildDim_length]
  · rw [hd]
    exact (buildDim_pa_mono T S 0 0 isDec4_zero hpg).2
  · intro r hr
    rw [hd] at hr
    have hlast := buildDim_getLast_pa T S 0 0 r isDec4_zero hr
    have hcomp : (S.map fun dr => roundTo 4 (dr.vNetaTotal / T)) =
        ((S.map fun dr => dr.vNetaTotal / T).map (roundTo 4)) := by
      rw [List.map_map]
      rfl
    have hsumq : (S.map fun dr => dr.vNetaTotal / T).sum = 1 := by
      rw [sum_map_div_drow, ← hT, div_self (ne_of_gt hTpos)]
    have hnear := sum_map_roundTo4_near (S.map fun dr => dr.vNetaTotal / T)
    rw [hsumq] at hnear
    have hlen : ((d.length : ℚ)) = ((S.map fun dr => dr.vNetaTotal / T).length : ℚ) := by
      rw [hd, buildDim_length, List.length_map]
    rw [hlast, hcomp, hlen]
    simpa using hnear

/-- C6 witness: the conclusion at the concrete `ventasC6` run. -/
theorem c6_witness :
    (dimOf ventasC6).map (·.ranking) = List.range' 1 (dimOf ventasC6).length ∧
      List.Chain' (fun a b => a.pa ≤ b.pa) (dimOf ventasC6) ∧
      |c6Last.pa - 1| ≤ ((dimOf ventasC6).length : ℚ) * (1 / 20000) :=
  ⟨(c6_cumulative ventasC6 (factOf ventasC6) (dimOf ventasC6) (by decide)).1,
   (c6_cumulative ventasC6 (factOf ventasC6) (dimOf ventasC6) (by decide)).2.1,
   (c6_cumulative ventasC6 (factOf ventasC6) (dimOf ventasC6) (by decide)).2.2 c6Last
     (by decide)⟩

/-! ## C1: fact/dimension consistency -/

/-- C1: the exported fact rows' net sales and the dimension rows' net
totals have equal sums (the difference is 0, in particular at most
$0.01). -/
theorem c1_consistency (rows : List CleanRow) (f : List FactRow) (d : List DimRow)
    (h : calculate_pareto rows = .ok (f, d)) :
    |(f.map (·.ventaNeta)).sum - (d.map (·.vNetaTotal)).sum| ≤ 1 / 100 := by
  obtain ⟨-, hd, hf⟩ := calculate_pareto_ok h
  set fact := makeFact rows with hfact
  set P := (dimCandidates rows fact).filter (fun x => 0 < x.vNetaTotal) with hP
  set S := P.insertionSort (fun a b => b.vNetaTotal ≤ a.vNetaTotal) with hS
  have hperm : S.Perm P := List.perm_insertionSort _ P
  have hdv : d.map (·.vNetaTotal) = S.map (·.vNetaTotal) := by
    rw [hd]
    exact buildDim_map_vNeta _ S 0 0
  have hda : d.map (·.articulo) = S.map (·.articulo) := by
    rw [hd]
    exact buildDim_map_articulo _ S 0 0
  have hsum1 : (S.map (·.vNetaTotal)).sum = (P.map (·.vNetaTotal)).sum :=
    (hperm.map (·.vNetaTotal)).sum_eq
  have hcand : ∀ x ∈ P, x.vNetaTotal = fsum fact x.articulo (·.ventaNeta) := by
    intro x hx
    have hxc : x ∈ dimCandidates rows fact := (List.mem_filter.1 hx).1
    rw [dimCandidates] at hxc
    obtain ⟨a, ha, rfl⟩ := List.mem_map.1 hxc
    rfl
  have hmapP : P.map (·.vNetaTotal) =
      (P.map (·.articulo)).map (fun a => fsum fact a (·.ventaNeta)) := by
    rw [List.map_map]
    exact List.map_congr_left hcand
  have hKnd : (P.map (·.articulo)).Nodup := by
    have h1 : P.Sublist (dimCandidates rows fact) := List.filter_sublist _
    have h2 := h1.map (·.articulo)
    apply h2.nodup
    have h3 : (dimCandidates rows fact).map (·.articulo) = dimKeys fact := by
      rw [dimCandidates, List.map_map]
      exact (List.map_congr_left fun a ha => rfl).trans (List.map_id _)
    rw [h3, dimKeys]
    exact List.nodup_dedup _
  have hreg := regroup_sum (P.map (·.articulo)) fact (·.ventaNeta) hKnd
  have hfilter : (fact.filter fun fr => decide (fr.articulo ∈ d.map (·.articulo))) =
      (fact.filter fun fr => decide (fr.articulo ∈ P.map (·.articulo))) := by
    apply List.filter_congr
    intro fr hfr
    simp only [decide_eq_decide]
    rw [hda]
    exact (hperm.map (·.articulo)).mem_iff
  rw [hf, hfilter, ← hreg, hdv, hsum1, hmapP]
  rw [sub_self, abs_zero]
  norm_num

/-- C1 witness: the consistency bound at the concrete `ventasC1` run. -/
theorem c1_witness :
    |((factOf ventasC1).map (·.ventaNeta)).sum -
        ((dimOf ventasC1).map (·.vNetaTotal)).sum| ≤ 1 / 100 :=
  c1_consistency ventasC1 (factOf ventasC1) (dimOf ventasC1) (by decide)

/-! ## C4: TOTAL/SUBTOTAL rows never reach the outputs -/

/-- C4: no clean row's `Articulo` or `Descripcion` matches a
TOTAL/SUBTOTAL pattern, and in a successful run no exported fact row and
no dimension row carries a pattern-matching article; in particular a row
with `Articulo = "TOTAL GENERAL"` is excluded from both outputs. -/
theorem c4_total_rows_dropped (t : CTable) :
    (∀ r ∈ clean_data t,
        matchesTotalPattern r.articulo = false ∧ matchesTotalPattern r.descripcion = false)
    ∧ ∀ f d, calculate_pareto (clean_data t) = .ok (f, d) →
        (∀ fr ∈ f, matchesTotalPattern fr.articulo = false) ∧
        (∀ dr ∈ d, matchesTotalPattern dr.articulo = false) := by
  have hclean : ∀ r ∈ clean_data t,
      matchesTotalPattern r.articulo = false ∧ matchesTotalPattern r.descripcion = false := by
    intro r hr
    rw [clean_data] at hr
    obtain ⟨hmem1, hp2⟩ := List.mem_filter.1 hr
    rw [Bool.and_eq_true, Bool.not_eq_true', Bool.not_eq_true'] at hp2
    obtain ⟨hart, hdesc⟩ := hp2
    refine ⟨hart, ?_⟩
    cases hD : t.hasDesc with
    | true =>
      rw [hD, Bool.true_and] at hdesc
      exact hdesc
    | false =>
      obtain ⟨hmem2, -⟩ := List.mem_filter.1 hmem1
      obtain ⟨src, hsrc, rfl⟩ := List.mem_map.1 hmem2
      show matchesTotalPattern
        (if t.hasDesc then pyUpper (pyStrip src.descripcion) else "SIN DESCRIPCION") = false
      rw [hD, if_neg (by simp)]
      decide
  refine ⟨hclean, ?_⟩
  intro f d h
  obtain ⟨-, hd, hf⟩ := calculate_pareto_ok h
  constructor
  · intro fr hfr
    rw [hf] at hfr
    have hfr2 := (List.mem_filter.1 hfr).1
    obtain ⟨r, hr, hra⟩ := makeFact_art_from_rows hfr2
    rw [← hra]
    exact (hclean r hr).1
  · intro dr hdr
    rw [hd] at hdr
    have hmem : dr.articulo ∈
        (((dimCandidates (clean_data t) (makeFact (clean_data t))).filter
            fun x => 0 < x.vNetaTotal).insertionSort
          fun a b => b.vNetaTotal ≤ a.vNetaTotal).map (·.articulo) := by
      rw [← buildDim_map_articulo]
      exact List.mem_map_of_mem _ hdr
    obtain ⟨x, hx, hxa⟩ := List.mem_map.1 hmem
    have hxP := (List.perm_insertionSort _ _).mem_iff.1 hx
    have hxc : x ∈ dimCandidates (clean_data t) (makeFact (clean_data t)) :=
      (List.mem_filter.1 hxP).1
    obtain ⟨fr, hfr, hfra⟩ := dimCandidates_art_from_fact hxc
    obtain ⟨r, hr, hra⟩ := makeFact_art_from_rows hfr
    rw [← hxa, ← hfra, ← hra]
    exact (hclean r hr).1

/-- C4 witness: the clean-stage exclusion applied to the first clean row
of the Scenario-2 table (whose summary row is dropped). -/
theorem c4_witness :
    matchesTotalPattern c4Row.articulo = false ∧
      matchesTotalPattern c4Row.descripcion = false :=
  (c4_total_rows_dropped scenario2Table).1 c4Row (by decide)

/-! ## C10: per-row fact invariants -/

/-- C10: every exported fact row has nonnegative gross and return
components, the unrounded group sums satisfy net = gross - return exactly,
and the rounded columns satisfy it within 0.015. -/
theorem c10_fact_invariants (rows : List CleanRow) (f : List FactRow) (d : List DimRow)
    (h : calculate_pareto rows = .ok (f, d)) :
    ∀ fr ∈ f,
      0 ≤ fr.ventaBruta ∧ 0 ≤ fr.ventaDevolucion ∧
      gsum rows fr.articulo fr.sucursal (·.ventaNeta) =
        gsum rows fr.articulo fr.sucursal (fun r => ventaBrutaOf r.ventaNeta) -
          gsum rows fr.articulo fr.sucursal (fun r => ventaDevolucionOf r.ventaNeta) ∧
      |fr.ventaNeta - (fr.ventaBruta - fr.ventaDevolucion)| ≤ 3 / 200 := by
  intro fr hfr
  obtain ⟨-, -, hf⟩ := calculate_pareto_ok h
  rw [hf] at hfr
  have hfr2 := (List.mem_filter.1 hfr).1
  rw [makeFact] at hfr2
  obtain ⟨k, hk, rfl⟩ := List.mem_map.1 hfr2
  have hgid : gsum rows k.1 k.2 (·.ventaNeta) =
      gsum rows k.1 k.2 (fun r => ventaBrutaOf r.ventaNeta) -
        gsum rows k.1 k.2 (fun r => ventaDevolucionOf r.ventaNeta) := by
    rw [gsum, gsum, gsum, ← sum_map_sub_clean]
    apply congrArg List.sum
    apply List.map_congr_left
    intro r _
    exact (bruta_sub_devolucion r.ventaNeta).symm
  refine ⟨?_, ?_, hgid, ?_⟩
  · apply roundTo_nonneg
    apply List.sum_nonneg
    intro q hq
    obtain ⟨r, hr, rfl⟩ := List.mem_map.1 hq
    rw [ventaBrutaOf]
    split_ifs with h1
    · linarith
    · exact le_refl 0
  · apply roundTo_nonneg
    apply List.sum_nonneg
    intro q hq
    obtain ⟨r, hr, rfl⟩ := List.mem_map.1 hq
    rw [ventaDevolucionOf]
    split_ifs with h1
    · exact abs_nonneg _
    · exact le_refl 0
  · set B := gsum rows k.1 k.2 (fun r => ventaBrutaOf r.ventaNeta) with hB
    set D := gsum rows k.1 k.2 (fun r => ventaDevolucionOf r.ventaNeta) with hD
    set Sn := gsum rows k.1 k.2 (·.ventaNeta) with hSn
    show |roundTo 2 Sn - (roundTo 2 B - roundTo 2 D)| ≤ 3 / 200
    have e1 : |roundTo 2 Sn - Sn| ≤ 1 / 200 := by
      have h1 := abs_roundTo_sub 2 Sn
      have h2 : (1 : ℚ) / (2 * 10 ^ 2) = 1 / 200 := by norm_num
      exact h2 ▸ h1
    have e2 : |roundTo 2 B - B| ≤ 1 / 200 := by
      have h1 := abs_roundTo_sub 2 B
      have h2 : (1 : ℚ) / (2 * 10 ^ 2) = 1 / 200 := by norm_num
      exact h2 ▸ h1
    have e3 : |roundTo 2 D - D| ≤ 1 / 200 := by
      have h1 := abs_roundTo_sub 2 D
      have h2 : (1 : ℚ) / (2 * 10 ^ 2) = 1 / 200 := by norm_num
      exact h2 ▸ h1
    have key : roundTo 2 Sn - (roundTo 2 B - roundTo 2 D) =
        (roundTo 2 Sn - Sn) - (roundTo 2 B - B) + (roundTo 2 D - D) := by
      rw [hgid]
      ring
    rw [key]
    calc |(roundTo 2 Sn - Sn) - (roundTo 2 B - B) + (roundTo 2 D - D)|
        ≤ |(roundTo 2 Sn - Sn) - (roundTo 2 B - B)| + |roundTo 2 D - D| := abs_add _ _
      _ ≤ |roundTo 2 Sn - Sn| + |roundTo 2 B - B| + |roundTo 2 D - D| := by
          have h4 := abs_sub (roundTo 2 Sn - Sn) (roundTo 2 B - B)
          linarith
      _ ≤ 1 / 200 + 1 / 200 + 1 / 200 := by linarith
      _ = 3 / 200 := by norm_num

/-- C10 witness: the invariants at the first exported fact row of
`ventasC10` (net 6 = gross 10 - returns 4). -/
theorem c10_witness :
    0 ≤ c10Row.ventaBruta ∧ 0 ≤ c10Row.ventaDevolucion ∧
      gsum ventasC10 c10Row.articulo c10Row.sucursal (·.ventaNeta) =
        gsum ventasC10 c10Row.articulo c10Row.sucursal (fun r => ventaBrutaOf r.ventaNeta) -
          gsum ventasC10 c10Row.articulo c10Row.sucursal
            (fun r => ventaDevolucionOf r.ventaNeta) ∧
      |c10Row.ventaNeta - (c10Row.ventaBruta - c10Row.ventaDevolucion)| ≤ 3 / 200 :=
  c10_fact_invariants ventasC10 (factOf ventasC10) (dimOf ventasC10) (by decide) c10Row
    (by decide)

end FashionRetail
